import Mathlib

set_option maxRecDepth 8000

/-!
Shallow embedding of the mental-health data pipeline (package `mh`): the
country-code resolver and resilient parquet reader from `utils.py`, and the
standardization, cleaning, gender-gap and join operations from `data.py`,
together with theorems settling the specification's claims against these
definitions.

Tables are modelled pandas-style: a list of column names plus rows given as
association lists from column name to cell; a missing binding reads as null
(pandas NaN). Numeric cells use `ℚ` (exact arithmetic; the claims involve no
float-rounding behaviour).
-/

namespace MH

/-- A scalar cell of a table: missing (NaN/None), numeric, or string. -/
inductive Cell where
  | null : Cell
  | num : ℚ → Cell
  | str : String → Cell
deriving DecidableEq

/-- A row: association list from column name to cell. -/
abbrev Row := List (String × Cell)

/-- Column access on a row; an absent binding reads as null (pandas NaN). -/
def getC (r : Row) (c : String) : Cell := ((r.lookup c).getD Cell.null)

/-- Column assignment on a row (`df[c] = v` replaces the whole binding). -/
def setC (r : Row) (c : String) (v : Cell) : Row :=
  r.filter (fun p => p.1 ≠ c) ++ [(c, v)]

/-- A table: ordered column names plus rows. -/
structure Table where
  cols : List String
  rows : List Row
deriving DecidableEq

/-- Rows bind only columns of the table (pandas invariant). -/
def wf (t : Table) : Prop := ∀ r ∈ t.rows, ∀ p ∈ r, p.1 ∈ t.cols

instance wf_decidable (t : Table) : Decidable (wf t) := by
  unfold wf; infer_instance

/-- Numeric view of a cell. -/
def toNum : Cell → Option ℚ
  | Cell.num q => some q
  | _ => none

theorem lookup_append (l₁ l₂ : Row) (c : String) :
    (l₁ ++ l₂).lookup c = ((l₁.lookup c).orElse (fun _ => l₂.lookup c)) := by
  induction l₁ with
  | nil => simp [List.lookup]
  | cons p rs ih =>
    simp only [List.cons_append, List.lookup]
    cases hbe : c == p.1 with
    | true => simp [Option.orElse]
    | false => simpa [Option.orElse] using ih

/-- Lookup in a row built by tabulating a function over a list of keys. -/
theorem lookup_tabulate (f : String → Cell) (ks : List String) (c : String)
    (hc : c ∈ ks) : (ks.map (fun k => (k, f k))).lookup c = some (f c) := by
  induction ks with
  | nil => cases hc
  | cons k ks ih =>
    simp only [List.map, List.lookup]
    cases hbe : c == k with
    | true => simp [(eq_of_beq hbe).symm]
    | false =>
      refine ih ?_
      rcases List.mem_cons.mp hc with h' | h'
      · exact absurd (by simp [h'] : (c == k) = true) (by simp [hbe])
      · exact h'

theorem lookup_tabulate_none (f : String → Cell) (ks : List String) (c : String)
    (hc : c ∉ ks) : (ks.map (fun k => (k, f k))).lookup c = none := by
  induction ks with
  | nil => rfl
  | cons k ks ih =>
    simp only [List.map, List.lookup]
    cases hbe : c == k with
    | true => exact absurd (eq_of_beq hbe) (by intro h; exact hc (h ▸ List.mem_cons_self k ks))
    | false => exact ih (fun h => hc (List.mem_cons_of_mem _ h))

/-- If a row binds no entry for key `c`, the lookup of `c` fails. -/
theorem lookup_none_of_not_bound (r : Row) (c : String)
    (h : ∀ p ∈ r, p.1 ≠ c) : r.lookup c = none := by
  induction r with
  | nil => rfl
  | cons p rs ih =>
    simp only [List.lookup]
    cases hbe : c == p.1 with
    | true => exact absurd (eq_of_beq hbe).symm (h p (List.mem_cons_self _ _))
    | false => exact ih (fun q hq => h q (List.mem_cons_of_mem _ hq))

theorem getC_setC_same (r : Row) (c : String) (v : Cell) :
    getC (setC r c v) c = v := by
  unfold getC setC
  rw [lookup_append]
  rw [lookup_none_of_not_bound (r.filter (fun p => p.1 ≠ c)) c
    (fun p hp => by simpa using (List.mem_filter.mp hp).2)]
  simp [List.lookup, Option.orElse]

theorem getC_append_of_not_bound (l₁ l₂ : Row) (c : String)
    (h : ∀ p ∈ l₁, p.1 ≠ c) : getC (l₁ ++ l₂) c = getC l₂ c := by
  unfold getC
  rw [lookup_append, lookup_none_of_not_bound l₁ c h]
  simp [Option.orElse]

theorem getC_append_left (l₁ l₂ : Row) (c : String) (v : Cell)
    (h : l₁.lookup c = some v) : getC (l₁ ++ l₂) c = v := by
  unfold getC
  rw [lookup_append, h]
  simp [Option.orElse]

/-! ## Code Resolver (`utils.py`) -/

/-- Apostrophe character, built by code point to keep source text plain. -/
def apos : Char := Char.ofNat 39

/-- The accented test name from the spec, `Côte d` + apostrophe + `Ivoire`. -/
def coteDIvoire : String := "Côte d" ++ String.singleton apos ++ "Ivoire"

/-- Python `str.lower` per character. Python lowercasing is Unicode-aware;
Lean's `Char.toLower` only handles ASCII, so the accented letters appearing in
the modelled reference data are mapped explicitly. -/
def pyCharLower (ch : Char) : Char :=
  if ch = 'Ô' then 'ô' else ch.toLower

/-- Python `str.lower` over a whole string. -/
def pyLowerStr (s : String) : String := String.mk (s.data.map pyCharLower)

/-- Python `str.strip()`: remove leading and trailing whitespace. -/
def pyStrip (s : String) : String :=
  String.mk (((s.data.dropWhile Char.isWhitespace).reverse.dropWhile
    Char.isWhitespace).reverse)

/-- Python `str.isalnum` per character. Python's test is Unicode-aware: accented
letters such as `ô` count as alphanumeric (they are NOT stripped); modelled here
over ASCII plus the accented letters appearing in the modelled reference data. -/
def pyIsAlnum (ch : Char) : Bool :=
  ch.isAlphanum || ch = 'ô' || ch = 'Ô'

/-- `_normalize_key` (utils.py lines 33-34):
`"".join(ch for ch in value.lower() if ch.isalnum())`. -/
def normalize_key (value : String) : String :=
  String.mk ((value.data.map pyCharLower).filter pyIsAlnum)

/-- Modelled from the spec: the bundled reference dataset
`_country_iso_fallback.json` (a data file of this repository not present under
`src/`), described in the spec as a static mapping from human-readable country
name (any casing/punctuation) to ISO-3 code. A representative fragment with
raw names as keys, including the canonical accented entry named by the spec. -/
def fallback_raw : List (String × String) :=
  [(coteDIvoire, "CIV"), ("France", "FRA"), ("United States", "USA"),
   ("Norway", "NOR")]

/-- `_fallback_iso_map` (utils.py lines 37-43): keys are normalized names. -/
def fallback_iso_map : List (String × String) :=
  fallback_raw.map (fun p => (normalize_key p.1, p.2))

/-- `_fallback_lookup` (utils.py lines 46-52). The `isinstance(name, str)`
guard is implicit in the Lean type; the empty-key guard is kept. -/
def fallback_lookup (name : String) : Option String :=
  let key := normalize_key name
  if key = "" then none else fallback_iso_map.lookup key

/-- Possible returns of the primary converter `_cc.convert` (an external
collaborator): a string, a list of strings, Python `None` (the configured
`not_found=None` sentinel), or a raised exception. -/
inductive ConvRet where
  | s : String → ConvRet
  | lst : List String → ConvRet
  | pynone : ConvRet
  | raised : ConvRet

/-- The not-found sentinel filter (utils.py line 72):
`code.lower().strip() in {"not found", "notfound", ""}` maps to `None`. -/
def sentinel_filter (v : String) : Option String :=
  if ["not found", "notfound", ""].contains (pyStrip (pyLowerStr v)) then none
  else some v

/-- Outcome of the primary-converter block (utils.py lines 64-73): exceptions
are swallowed to `None`, list results take the head, sentinel results drop. -/
def primary_code : ConvRet → Option String
  | ConvRet.raised => none
  | ConvRet.pynone => none
  | ConvRet.lst vs =>
    match vs with
    | [] => none
    | v :: _ => sentinel_filter v
  | ConvRet.s v => sentinel_filter v

/-- An element of a pandas Series holding country names: a string, float NaN,
or Python None. -/
inductive PyVal where
  | str : String → PyVal
  | nan : PyVal
  | pynone : PyVal
deriving DecidableEq

/-- `astype(str)` on a Series element (utils.py line 78): NaN renders as
`"nan"`, None as `"None"`. -/
def pyStr : PyVal → String
  | PyVal.str s => s
  | PyVal.nan => "nan"
  | PyVal.pynone => "None"

/-- The inner `_map` of `to_iso3` (utils.py lines 56-76) applied to one
already-stringified element. `cc = none` models `country_converter` not being
installed (`_cc is None`); otherwise `cc = some conv` gives the primary
converter's behaviour on each queried name. The try/except around `convert`
is `ConvRet.raised ↦ none`; no path raises. -/
def to_iso3_elem (cc : Option (String → ConvRet)) (x : PyVal) : Option String :=
  let name := pyStrip (pyStr x)
  if name = "" then none
  else
    let code : Option String :=
      match cc with
      | some conv => primary_code (conv name)
      | none => none
    let code : Option String :=
      match code with
      | some c => if pyStrip c = "" then fallback_lookup name else some c
      | none => fallback_lookup name
    match code with
    | some c => if c = "" then none else some c
    | none => none

/-- `to_iso3` (utils.py lines 55-78): vectorized over a Series. -/
def to_iso3 (cc : Option (String → ConvRet)) (xs : List PyVal) :
    List (Option String) :=
  xs.map (to_iso3_elem cc)

/-- The unaccented apostrophe variant of the test name. -/
def coteNoAccent : String := "Cote d" ++ String.singleton apos ++ "Ivoire"

/-- C4, counterexample. The claim asserts that every casing / punctuation /
diacritic / spacing variant of a bundled name produces the same normalized key,
and in particular that resolving the accented name equals resolving
`"cote d ivoire"`. False: Python `str.lower`/`str.isalnum` are Unicode-aware
and do NOT strip diacritics, so the accented name normalizes to a key that
still carries `ô`, while the plain variant does not; in the fallback-only
configuration the accented name resolves to `CIV` and the plain spacing
variant resolves to nothing. -/
theorem claim4_counterexample :
    normalize_key coteDIvoire ≠ normalize_key "cote d ivoire" ∧
    to_iso3_elem none (PyVal.str coteDIvoire) = some "CIV" ∧
    to_iso3_elem none (PyVal.str "cote d ivoire") = none := by
  constructor
  · decide
  · constructor <;> decide

/-- C4, amended. Fallback resolution is invariant under exactly those input
variations that leave the normalized key (lowercase, alphanumeric-only,
diacritics retained) unchanged: any two names with equal normalized keys get
the same fallback result. Casing, punctuation and spacing variants of a name
normalize identically, but diacritic variants do not. -/
theorem claim4_normalization_invariance (s t : String)
    (h : normalize_key s = normalize_key t) :
    fallback_lookup s = fallback_lookup t := by
  unfold fallback_lookup
  rw [h]

/-- C4, witness: a casing/punctuation/spacing variant pair with equal
normalized keys, resolved identically by the fallback lookup. -/
theorem claim4_witness :
    normalize_key coteNoAccent = normalize_key "cote d ivoire" ∧
    fallback_lookup coteNoAccent = fallback_lookup "cote d ivoire" :=
  ⟨by decide, claim4_normalization_invariance coteNoAccent "cote d ivoire" (by decide)⟩

/-- C7, confirmed. Every empty, whitespace-only, or non-string element (float
NaN or Python None, which `astype(str)` renders as `"nan"`/`"None"`) resolves
to absent. The hypothesis `hcc` models the external primary converter (spec
section 6: `convert(name, target) -> code or not-found sentinel`) not knowing a
country by the literal names `"nan"`/`"None"`; the model is total, and the
`try/except` around `convert` is embedded as `ConvRet.raised ↦ none`, so no
input raises. -/
theorem claim7_degenerate_resolve (cc : Option (String → ConvRet)) (x : PyVal)
    (hx : x = PyVal.nan ∨ x = PyVal.pynone ∨
      ∃ s, x = PyVal.str s ∧ pyStrip s = "")
    (hcc : ∀ conv, cc = some conv →
      primary_code (conv "nan") = none ∧ primary_code (conv "None") = none) :
    to_iso3_elem cc x = none := by
  rcases hx with h | h | ⟨s, hs, hstrip⟩
  · subst h
    cases cc with
    | none => decide
    | some conv =>
      have h2 := (hcc conv rfl).1
      simp only [to_iso3_elem, pyStr]
      rw [show pyStrip "nan" = "nan" by decide]
      rw [if_neg (by decide)]
      rw [h2]
      decide
  · subst h
    cases cc with
    | none => decide
    | some conv =>
      have h2 := (hcc conv rfl).2
      simp only [to_iso3_elem, pyStr]
      rw [show pyStrip "None" = "None" by decide]
      rw [if_neg (by decide)]
      rw [h2]
      decide
  · subst hs
    simp only [to_iso3_elem, pyStr]
    rw [hstrip, if_pos rfl]

/-- C7, witness: float NaN under the fallback-only configuration and a
whitespace-only string both resolve to absent. -/
theorem claim7_witness :
    to_iso3_elem none PyVal.nan = none ∧
    to_iso3_elem none (PyVal.str "  ") = none := by
  constructor
  · exact claim7_degenerate_resolve none PyVal.nan (Or.inl rfl)
      (fun conv h => by cases h)
  · exact claim7_degenerate_resolve none (PyVal.str "  ")
      (Or.inr (Or.inr ⟨"  ", rfl, by decide⟩)) (fun conv h => by cases h)

/-! ## Resilient Reader (`utils.py`, `read_parquet_safe`) -/

/-- Python exceptions relevant to the reader: `OSError` (pyarrow surfaces the
structural defect as an `OSError` with a message), `TypeError`, `KeyError`
(carrying the missing-column list), `ImportError`, and anything else. -/
inductive PyExc where
  | osError : String → PyExc
  | typeError : String → PyExc
  | keyError : List String → PyExc
  | importError : String → PyExc
  | valueError : String → PyExc
  | otherError : String → PyExc
deriving DecidableEq

/-- Outcome of one read attempt against the on-disk file. -/
inductive Attempt where
  | ok : Table → Attempt
  | exc : PyExc → Attempt

/-- Substring containment over character lists. -/
def containsSub (pat s : List Char) : Bool :=
  (List.range (s.length + 1)).any (fun i => pat.isPrefixOf (s.drop i))

/-- The structural-defect signature test (utils.py lines 112, 129, 134):
the Python membership test of the signature text within `str(err)`. -/
def hasDefect (msg : String) : Bool :=
  containsSub "Repetition level histogram size mismatch".data msg.data

/-- The environment a call to `read_parquet_safe` runs against: what each
read strategy would produce for this path, and which optional libraries are
importable. Each field models one call site. -/
structure ParquetEnv where
  /-- `pd.read_parquet(path, columns=columns)` (line 109). -/
  pandasRead : Option (List String) → Attempt
  /-- `pq.read_table(path, use_legacy_dataset=True, use_threads=False)` (line 125). -/
  readTableLegacy : Attempt
  /-- `pq.read_table(path, use_threads=False)` (line 127, TypeError handler). -/
  readTablePlain : Attempt
  /-- `pq.ParquetFile(path).read(use_threads=False)` (line 132). -/
  parquetFileRead : Attempt
  /-- `pd.read_parquet(path, columns=columns, engine="fastparquet")` (line 138). -/
  fastparquetRead : Option (List String) → Attempt
  /-- whether `import pyarrow` / `pyarrow.parquet` succeeds (line 120). -/
  pyarrowImportOk : Bool
  /-- whether `import fastparquet` succeeds (line 137). -/
  fastparquetImportOk : Bool

/-- Result of the inner fallback chain (lines 124-140): an arrow table still
to be converted and column-projected, a frame returned directly by the
fastparquet engine (line 138 returns without column validation), or a
propagated exception. -/
inductive ReadStep where
  | arrow : Table → ReadStep
  | direct : Table → ReadStep
  | failed : PyExc → ReadStep

/-- `frame[columns]` projection. -/
def project (t : Table) (cs : List String) : Table :=
  { cols := cs, rows := t.rows.map (fun r => cs.map (fun c => (c, getC r c))) }

/-- The nested fallback chain of `read_parquet_safe` (utils.py lines 124-140),
entered only when the first error carried the defect signature. A `TypeError`
from the legacy keyword falls through to a plain `read_table` whose failures
propagate uncaught; an `OSError` without the signature propagates; on the
signature, the single-file `ParquetFile` mode is tried, and on a third
signature failure the fastparquet engine — whose own failure (or failed
fastparquet importing) re-raises the third error `err3`. -/
def read_fallback_chain (env : ParquetEnv) (columns : Option (List String)) :
    ReadStep :=
  match env.readTableLegacy with
  | Attempt.ok t => ReadStep.arrow t
  | Attempt.exc (PyExc.typeError _) =>
    (match env.readTablePlain with
     | Attempt.ok t => ReadStep.arrow t
     | Attempt.exc e => ReadStep.failed e)
  | Attempt.exc (PyExc.osError m2) =>
    if !(hasDefect m2) then ReadStep.failed (PyExc.osError m2)
    else
      match env.parquetFileRead with
      | Attempt.ok t => ReadStep.arrow t
      | Attempt.exc (PyExc.osError m3) =>
        if !(hasDefect m3) then ReadStep.failed (PyExc.osError m3)
        else if !env.fastparquetImportOk then ReadStep.failed (PyExc.osError m3)
        else
          (match env.fastparquetRead columns with
           | Attempt.ok t => ReadStep.direct t
           | Attempt.exc _ => ReadStep.failed (PyExc.osError m3))
      | Attempt.exc e3 => ReadStep.failed e3
  | Attempt.exc e2 => ReadStep.failed e2

/-- `read_parquet_safe` (utils.py lines 103-147). Only an `OSError` whose
message carries the defect signature triggers the fallback chain; a missing
pyarrow import re-raises the original error; an arrow-table success validates
and projects a requested column subset, while a fastparquet success returns
directly. -/
def read_parquet_safe (env : ParquetEnv) (columns : Option (List String)) :
    Except PyExc Table :=
  match env.pandasRead columns with
  | Attempt.ok t => Except.ok t
  | Attempt.exc (PyExc.osError m1) =>
    if !(hasDefect m1) then Except.error (PyExc.osError m1)
    else if !env.pyarrowImportOk then Except.error (PyExc.osError m1)
    else
      match read_fallback_chain env columns with
      | ReadStep.direct t => Except.ok t
      | ReadStep.failed e => Except.error e
      | ReadStep.arrow t =>
        match columns with
        | none => Except.ok t
        | some cs =>
          let missing := cs.filter (fun c => !(t.cols.contains c))
          if missing ≠ [] then Except.error (PyExc.keyError missing)
          else Except.ok (project t cs)
  | Attempt.exc e1 => Except.error e1

/-- First-attempt defect messages for the exhaustion scenario. -/
def defectMsg1 : String := "Repetition level histogram size mismatch in row group 0"

/-- Second-attempt defect message. -/
def defectMsg2 : String := "Repetition level histogram size mismatch in row group 1"

/-- Third-attempt defect message. -/
def defectMsg3 : String := "Repetition level histogram size mismatch in row group 2"

/-- A file behaviour on which every strategy fails with the defect signature. -/
def envExhausted : ParquetEnv :=
  { pandasRead := fun _ => Attempt.exc (PyExc.osError defectMsg1),
    readTableLegacy := Attempt.exc (PyExc.osError defectMsg2),
    readTablePlain := Attempt.exc (PyExc.osError defectMsg2),
    parquetFileRead := Attempt.exc (PyExc.osError defectMsg3),
    fastparquetRead := fun _ =>
      Attempt.exc (PyExc.osError "Repetition level histogram size mismatch in row group 3"),
    pyarrowImportOk := true,
    fastparquetImportOk := true }

/-- C2, counterexample. When every strategy fails with the defect signature,
the claim says the error from the *first* attempt is re-raised. False: the
code's final handler is `raise err3`, so the surfaced error is the one from
the third attempt (the single-file `ParquetFile` read), not the first. -/
theorem claim2_counterexample :
    read_parquet_safe envExhausted none ≠
      Except.error (PyExc.osError defectMsg1) ∧
    read_parquet_safe envExhausted none =
      Except.error (PyExc.osError defectMsg3) := by
  constructor
  · intro h
    have : PyExc.osError defectMsg3 = PyExc.osError defectMsg1 := by
      have h2 : read_parquet_safe envExhausted none =
          Except.error (PyExc.osError defectMsg3) := rfl
      exact Except.error.inj (h2.symm.trans h)
    exact absurd (PyExc.osError.inj this) (by decide)
  · rfl

/-- C2, amended. For every read in which the primary strategy and every
fallback strategy fail with the structural defect signature, the reader
re-raises the error of the *third* attempt (`err3`, the single-file
`ParquetFile` read) — the last signature-bearing error before the
fastparquet attempt — not the error of the first attempt. -/
theorem claim2_raises_third_error (env : ParquetEnv)
    (columns : Option (List String)) (m1 m2 m3 : String) (e4 : PyExc)
    (h1 : env.pandasRead columns = Attempt.exc (PyExc.osError m1))
    (hd1 : hasDefect m1 = true)
    (hpa : env.pyarrowImportOk = true)
    (h2 : env.readTableLegacy = Attempt.exc (PyExc.osError m2))
    (hd2 : hasDefect m2 = true)
    (h3 : env.parquetFileRead = Attempt.exc (PyExc.osError m3))
    (hd3 : hasDefect m3 = true)
    (hfp : env.fastparquetImportOk = true)
    (h4 : env.fastparquetRead columns = Attempt.exc e4) :
    read_parquet_safe env columns = Except.error (PyExc.osError m3) := by
  simp [read_parquet_safe, read_fallback_chain, h1, h2, h3, h4, hd1, hd2, hd3,
    hpa, hfp]

/-- C2, witness: the amended statement applied to the concrete exhausted
file behaviour. -/
theorem claim2_witness :
    read_parquet_safe envExhausted none =
      Except.error (PyExc.osError defectMsg3) :=
  claim2_raises_third_error envExhausted none defectMsg1 defectMsg2 defectMsg3
    (PyExc.osError "Repetition level histogram size mismatch in row group 3")
    rfl (by decide) rfl rfl (by decide) rfl (by decide) rfl rfl

/-- C6, confirmed. If the primary strategy fails with any error that is not
an `OSError` carrying the defect signature, that same error propagates
immediately: the conclusion holds for every environment, i.e. for arbitrary
behaviour of all fallback strategies — none of them is consulted. -/
theorem claim6_no_fallback (env : ParquetEnv) (columns : Option (List String))
    (e1 : PyExc)
    (h1 : env.pandasRead columns = Attempt.exc e1)
    (h2 : ∀ m, e1 = PyExc.osError m → hasDefect m = false) :
    read_parquet_safe env columns = Except.error e1 := by
  cases e1 with
  | osError m => simp [read_parquet_safe, h1, h2 m rfl]
  | typeError m => simp [read_parquet_safe, h1]
  | keyError ms => simp [read_parquet_safe, h1]
  | importError m => simp [read_parquet_safe, h1]
  | valueError m => simp [read_parquet_safe, h1]
  | otherError m => simp [read_parquet_safe, h1]

/-- A file behaviour whose primary read fails with a non-defect error while
a fallback strategy would have succeeded. -/
def envOtherError : ParquetEnv :=
  { pandasRead := fun _ => Attempt.exc (PyExc.osError "No such file or directory"),
    readTableLegacy := Attempt.ok { cols := ["year"], rows := [[("year", Cell.num 2020)]] },
    readTablePlain := Attempt.ok { cols := ["year"], rows := [[("year", Cell.num 2020)]] },
    parquetFileRead := Attempt.ok { cols := ["year"], rows := [[("year", Cell.num 2020)]] },
    fastparquetRead := fun _ =>
      Attempt.ok { cols := ["year"], rows := [[("year", Cell.num 2020)]] },
    pyarrowImportOk := true,
    fastparquetImportOk := true }

/-- C6, witness: a non-defect `OSError` propagates unchanged even though
every fallback strategy would succeed. -/
theorem claim6_witness :
    read_parquet_safe envOtherError none =
      Except.error (PyExc.osError "No such file or directory") :=
  claim6_no_fallback envOtherError none
    (PyExc.osError "No such file or directory") rfl
    (fun m hm => by cases hm; decide)

/-! ## Ingest derivation (`data.py`, `ingest_csv` lines 14-16) -/

/-- One row of `df[["prevalence_male", "prevalence_female"]].mean(axis=1)`:
pandas' default `skipna=True` mean over the two cells — the mean of the
non-null operands, null only when both are null. -/
def prevalence_row_mean (r : Row) : Cell :=
  let vs := ([getC r "prevalence_male", getC r "prevalence_female"]).filterMap toNum
  match vs with
  | [] => Cell.null
  | _ => Cell.num (vs.sum / (vs.length : ℚ))

/-- The derivation step of `ingest_csv` (data.py lines 14-16), applied after
column renaming: when `prevalence_total` is absent and both sex-specific
columns are present, assign the row-wise pandas mean. -/
def derive_total (df : Table) : Table :=
  if !(df.cols.contains "prevalence_total") && df.cols.contains "prevalence_male"
      && df.cols.contains "prevalence_female" then
    { cols := df.cols ++ ["prevalence_total"],
      rows := df.rows.map (fun r => setC r "prevalence_total" (prevalence_row_mean r)) }
  else df

/-- A row with `prevalence_male = 10` and `prevalence_female` null. -/
def rowOneSided : Row :=
  [("country", Cell.str "Norway"), ("prevalence_male", Cell.num 10),
   ("prevalence_female", Cell.null)]

/-- Input with `prevalence_male = 10` and `prevalence_female` null. -/
def dfOneSided : Table :=
  { cols := ["country", "prevalence_male", "prevalence_female"],
    rows := [rowOneSided] }

/-- C1, counterexample. The claim says a row with `prevalence_male = 10` and
`prevalence_female` null derives a null total. False: pandas `mean(axis=1)`
defaults to `skipna=True`, so the derived total is `10.0`. -/
theorem claim1_counterexample :
    (derive_total dfOneSided).rows.map (fun r => getC r "prevalence_total") =
      [Cell.num 10] := by
  have hone : (derive_total dfOneSided).rows =
      [setC rowOneSided "prevalence_total" (prevalence_row_mean rowOneSided)] := rfl
  rw [hone]
  simp only [List.map]
  rw [getC_setC_same]
  have h3 : List.filterMap toNum [getC rowOneSided "prevalence_male",
      getC rowOneSided "prevalence_female"] = [(10 : ℚ)] := rfl
  simp only [prevalence_row_mean, h3]
  norm_num

/-- C1, amended. When `prevalence_total` is absent and both sex-specific
columns are present, the derived total of a row is the skip-null mean of the
two operands: the arithmetic mean when both are non-null, the single value
when exactly one is non-null (single-sided imputation does happen), and null
only when both are null. -/
theorem claim1_skipna_mean (df : Table)
    (h1 : df.cols.contains "prevalence_total" = false)
    (h2 : df.cols.contains "prevalence_male" = true)
    (h3 : df.cols.contains "prevalence_female" = true)
    (r : Row) (hr : r ∈ df.rows) :
    ∃ rr ∈ (derive_total df).rows,
      getC rr "prevalence_total" =
        match toNum (getC r "prevalence_male"),
            toNum (getC r "prevalence_female") with
        | some a, some b => Cell.num ((a + b) / 2)
        | some a, none => Cell.num a
        | none, some b => Cell.num b
        | none, none => Cell.null := by
  refine ⟨setC r "prevalence_total" (prevalence_row_mean r), ?_, ?_⟩
  · simp only [derive_total, h1, h2, h3]
    exact List.mem_map_of_mem _ hr
  · rw [getC_setC_same]
    cases hm : toNum (getC r "prevalence_male") with
    | some a =>
      cases hf : toNum (getC r "prevalence_female") with
      | some b =>
        simp only [prevalence_row_mean, List.filterMap, hm, hf]
        norm_num
      | none =>
        simp only [prevalence_row_mean, List.filterMap, hm, hf]
        norm_num
    | none =>
      cases hf : toNum (getC r "prevalence_female") with
      | some b =>
        simp only [prevalence_row_mean, List.filterMap, hm, hf]
        norm_num
      | none =>
        simp only [prevalence_row_mean, List.filterMap, hm, hf]

/-- A row with both operands present, `10` and `20`. -/
def rowBothSides : Row :=
  [("prevalence_male", Cell.num 10), ("prevalence_female", Cell.num 20)]

/-- Input with both sex-specific operands present. -/
def dfBothSides : Table :=
  { cols := ["prevalence_male", "prevalence_female"], rows := [rowBothSides] }

/-- C1, witness: on a table whose single row has both operands present
(`10` and `20`), the derived total is their mean `15`. -/
theorem claim1_witness :
    ∃ rr ∈ (derive_total dfBothSides).rows,
      getC rr "prevalence_total" = Cell.num 15 := by
  have h := claim1_skipna_mean dfBothSides (by decide) (by decide) (by decide)
    rowBothSides (List.mem_singleton.mpr rfl)
  rcases h with ⟨rr, hmem, hval⟩
  refine ⟨rr, hmem, ?_⟩
  rw [hval]
  have hm : toNum (getC rowBothSides "prevalence_male") = some (10 : ℚ) := rfl
  have hf : toNum (getC rowBothSides "prevalence_female") = some (20 : ℚ) := rfl
  rw [hm, hf]
  norm_num

/-! ## Cleaner (`data.py`, `clean`) -/

/-- `drop_duplicates(subset=keyCols, keep="first")`: keep the first row of
each group of rows agreeing on the key projection. -/
def dedup_first (keyCols : List String) : List Row → List (List Cell) → List Row
  | [], _ => []
  | r :: rs, seen =>
    let k := keyCols.map (getC r)
    if k ∈ seen then dedup_first keyCols rs seen
    else r :: dedup_first keyCols rs (k :: seen)

/-- The dedup key of `clean` (data.py line 38): the projection of a row to
every table column except `sex`. -/
def clean_key (df : Table) (r : Row) : List Cell :=
  (df.cols.filter (fun c => !(c == "sex"))).map (getC r)

/-- `clean` (data.py lines 31-39): require `country_iso3` and `year`, drop
rows null in either, then `drop_duplicates(subset=[c for c in df.columns if
c != "sex"])`. -/
def clean (df : Table) : Except PyExc Table :=
  if !(df.cols.contains "country_iso3") then
    Except.error (PyExc.valueError "Missing required column country_iso3. Check your columns.yaml mapping and ingest step.")
  else if !(df.cols.contains "year") then
    Except.error (PyExc.valueError "Missing required column year. Check your columns.yaml mapping and ingest step.")
  else
    let kept := df.rows.filter (fun r =>
      decide (getC r "country_iso3" ≠ Cell.null) && decide (getC r "year" ≠ Cell.null))
    Except.ok (Table.mk df.cols
      (dedup_first (df.cols.filter (fun c => !(c == "sex"))) kept []))

/-- Two rows identical in every field except `sex`. -/
def dfSexPair : Table :=
  { cols := ["country_iso3", "year", "prevalence_total", "sex"],
    rows :=
      [[("country_iso3", Cell.str "NOR"), ("year", Cell.num 2020),
        ("prevalence_total", Cell.num 10), ("sex", Cell.str "male")],
       [("country_iso3", Cell.str "NOR"), ("year", Cell.num 2020),
        ("prevalence_total", Cell.num 10), ("sex", Cell.str "female")]] }

/-- C8, counterexample. The claim says a pair of rows identical in all fields
except `sex` (one male, one female) are both retained. False: the dedup
subset excludes `sex` from the comparison, so the two rows compare equal and
only the first is kept. -/
theorem claim8_counterexample :
    dfSexPair.rows.length = 2 ∧
    clean dfSexPair = Except.ok
      { cols := ["country_iso3", "year", "prevalence_total", "sex"],
        rows := [[("country_iso3", Cell.str "NOR"), ("year", Cell.num 2020),
          ("prevalence_total", Cell.num 10), ("sex", Cell.str "male")]] } :=
  ⟨rfl, rfl⟩

theorem dedup_first_nodup (kc : List String) (rows : List Row)
    (seen : List (List Cell)) :
    ((dedup_first kc rows seen).map (fun r => kc.map (getC r))).Nodup ∧
    ∀ k ∈ (dedup_first kc rows seen).map (fun r => kc.map (getC r)), k ∉ seen := by
  induction rows generalizing seen with
  | nil => exact ⟨List.nodup_nil, by intro k hk; cases hk⟩
  | cons r rs ih =>
    by_cases h : (kc.map (getC r)) ∈ seen
    · have := ih seen
      simpa [dedup_first, h] using this
    · have ih' := ih ((kc.map (getC r)) :: seen)
      simp only [dedup_first, if_neg h, List.map_cons]
      constructor
      · exact List.nodup_cons.mpr
          ⟨fun hmem => (ih'.2 _ hmem) (List.mem_cons_self _ _), ih'.1⟩
      · intro k hk
        rcases List.mem_cons.mp hk with hk | hk
        · exact hk ▸ h
        · exact fun hs => (ih'.2 k hk) (List.mem_cons_of_mem _ hs)

theorem dedup_first_coverage (kc : List String) (rows : List Row)
    (seen : List (List Cell)) :
    ∀ r ∈ rows, (kc.map (getC r)) ∈ seen ∨
      (kc.map (getC r)) ∈ (dedup_first kc rows seen).map (fun r => kc.map (getC r)) := by
  induction rows generalizing seen with
  | nil => intro r hr; cases hr
  | cons r0 rs ih =>
    intro r hr
    by_cases h : (kc.map (getC r0)) ∈ seen
    · rcases List.mem_cons.mp hr with hr' | hr'
      · exact Or.inl (hr' ▸ h)
      · simpa [dedup_first, h] using ih seen r hr'
    · simp only [dedup_first, if_neg h, List.map_cons]
      rcases List.mem_cons.mp hr with hr' | hr'
      · exact Or.inr (hr' ▸ List.mem_cons_self _ _)
      · rcases ih ((kc.map (getC r0)) :: seen) r hr' with hs | ho
        · rcases List.mem_cons.mp hs with h1 | h1
          · exact Or.inr (h1 ▸ List.mem_cons_self _ _)
          · exact Or.inl h1
        · exact Or.inr (List.mem_cons_of_mem _ ho)

/-- C8, amended. `clean` deduplicates on every field except `sex`, ignoring
`sex` entirely: among the retained rows no two share the non-`sex`
projection (so of two rows identical including `sex`, and equally of two
rows identical except `sex`, exactly one — the first — is retained), and
every row surviving the null-drop is represented by its projection. -/
theorem claim8_dedup_ignores_sex (df t : Table) (h : clean df = Except.ok t) :
    ((t.rows.map (clean_key df)).Nodup) ∧
    (∀ r ∈ df.rows, getC r "country_iso3" ≠ Cell.null →
      getC r "year" ≠ Cell.null → clean_key df r ∈ t.rows.map (clean_key df)) := by
  by_cases h1 : df.cols.contains "country_iso3"
  · by_cases h2 : df.cols.contains "year"
    · have ht : t = Table.mk df.cols
          (dedup_first (df.cols.filter (fun c => !(c == "sex")))
            (df.rows.filter (fun r =>
              decide (getC r "country_iso3" ≠ Cell.null) &&
              decide (getC r "year" ≠ Cell.null))) []) := by
        have hh := h
        simp only [clean, h1, h2, Bool.not_true, Bool.false_eq_true,
          if_false] at hh
        exact (Except.ok.inj hh).symm
      subst ht
      constructor
      · exact (dedup_first_nodup _ _ []).1
      · intro r hr hn1 hn2
        have hkept : r ∈ df.rows.filter (fun r =>
            decide (getC r "country_iso3" ≠ Cell.null) &&
            decide (getC r "year" ≠ Cell.null)) := by
          rw [List.mem_filter]
          exact ⟨hr, by simp [hn1, hn2]⟩
        have := dedup_first_coverage (df.cols.filter (fun c => !(c == "sex")))
          _ [] r hkept
        rcases this with hs | ho
        · cases hs
        · exact ho
    · exfalso
      simp only [clean, h1, h2] at h
      cases h
  · exfalso
    simp only [clean, h1] at h
    cases h

/-- The table `clean` produces from `dfSexPair`. -/
def cleanedSexPair : Table :=
  { cols := ["country_iso3", "year", "prevalence_total", "sex"],
    rows := [[("country_iso3", Cell.str "NOR"), ("year", Cell.num 2020),
      ("prevalence_total", Cell.num 10), ("sex", Cell.str "male")]] }

/-- C8, witness: on the concrete sex-differentiated pair, the cleaned table's
non-`sex` projections are duplicate-free and cover both surviving input rows. -/
theorem claim8_witness :
    ((cleanedSexPair.rows.map (clean_key dfSexPair)).Nodup) ∧
    (∀ r ∈ dfSexPair.rows, getC r "country_iso3" ≠ Cell.null →
      getC r "year" ≠ Cell.null →
      clean_key dfSexPair r ∈ cleanedSexPair.rows.map (clean_key dfSexPair)) :=
  claim8_dedup_ignores_sex dfSexPair cleanedSexPair rfl

/-! ## External Joiner (`data.py`, `join_external`) -/

/-- The external table's non-key columns: the columns `pd.merge` appends to
the base columns. -/
def right_nonkey_cols (r : Table) (onCols : List String) : List String :=
  r.cols.filter (fun c => !(onCols.contains c))

/-- Whether two rows agree on every key column (pandas join-key equality;
nulls match nulls, as NaN keys do in `pd.merge`). -/
def keys_match (onCols : List String) (a b : Row) : Bool :=
  onCols.all (fun k => decide (getC a k = getC b k))

/-- The external rows matching a base row on the key columns. -/
def row_matches (onCols : List String) (lr : Row) (rrows : List Row) : List Row :=
  rrows.filter (keys_match onCols lr)

/-- The rows of `pd.merge(base, ext, on=onCols, how="left")`: every base row,
fanned out over its matches, with the external non-key columns appended —
null when the base row has no match. -/
def join_rows_left (l r : Table) (onCols : List String) : List Row :=
  l.rows.flatMap (fun lr =>
    let ms := row_matches onCols lr r.rows
    if ms = [] then [lr ++ (right_nonkey_cols r onCols).map (fun c => (c, Cell.null))]
    else ms.map (fun rr => lr ++ (right_nonkey_cols r onCols).map (fun c => (c, getC rr c))))

/-- `join_external` (data.py lines 90-91): `pd.merge(base, external, on=onCols,
how="left")`. Overlapping non-key column names (pandas suffixing) are not
modelled; the theorems assume key-disjoint column sets. -/
def join_external (base external : Table) (onCols : List String) : Table :=
  { cols := base.cols ++ right_nonkey_cols external onCols,
    rows := join_rows_left base external onCols }

theorem getC_append_tabulate_of_not_mem (lr : Row) (cs : List String)
    (f : String → Cell) (c : String) (hc : c ∉ cs) :
    getC (lr ++ cs.map (fun x => (x, f x))) c = getC lr c := by
  unfold getC
  rw [lookup_append]
  cases hl : lr.lookup c with
  | some v => simp [Option.orElse]
  | none => simp [Option.orElse, lookup_tabulate_none f cs c hc]

theorem getC_append_tabulate_of_mem (lr : Row) (cs : List String)
    (f : String → Cell) (c : String) (hc : c ∈ cs)
    (hb : ∀ p ∈ lr, p.1 ≠ c) :
    getC (lr ++ cs.map (fun x => (x, f x))) c = f c := by
  unfold getC
  rw [lookup_append, lookup_none_of_not_bound lr c hb]
  simp [Option.orElse, lookup_tabulate f cs c hc]

/-- The left-join contract, as a predicate over concrete tables: (i) the
result has one row per base row and external match, at least one per base
row; (ii) every base record is retained with its base columns unchanged;
(iii) every result row arises from some base record (unmatched external rows
are dropped); (iv) a base row with no match keeps its base columns and gets
null in every appended external column. -/
def left_join_spec (base ext : Table) (onCols : List String) : Prop :=
  ((join_external base ext onCols).rows.length =
    (base.rows.map (fun lr => max 1 (row_matches onCols lr ext.rows).length)).sum) ∧
  (∀ lr ∈ base.rows, ∃ tr ∈ (join_external base ext onCols).rows,
    ∀ c ∈ base.cols, getC tr c = getC lr c) ∧
  (∀ tr ∈ (join_external base ext onCols).rows, ∃ lr ∈ base.rows,
    ∀ c ∈ base.cols, getC tr c = getC lr c) ∧
  (∀ lr ∈ base.rows, row_matches onCols lr ext.rows = [] →
    ∃ tr ∈ (join_external base ext onCols).rows,
      (∀ c ∈ base.cols, getC tr c = getC lr c) ∧
      (∀ c ∈ right_nonkey_cols ext onCols, getC tr c = Cell.null))

theorem base_cols_preserved (base ext : Table) (onCols : List String)
    (hd : ∀ c ∈ right_nonkey_cols ext onCols, c ∉ base.cols)
    (lr : Row) (f : String → Cell) (c : String) (hc : c ∈ base.cols) :
    getC (lr ++ (right_nonkey_cols ext onCols).map (fun x => (x, f x))) c =
      getC lr c :=
  getC_append_tabulate_of_not_mem lr _ f c (fun hmem => hd c hmem hc)

/-- C3, corrected-claim theorem. `join_external` is a left outer merge with
fan-out cardinality: every base record is retained *at least* once (exactly
once only when it has at most one external match), unmatched external rows
are dropped, and appended external columns are null where a base row has no
match. Hypotheses: the appended external columns are disjoint from the base
columns (no pandas suffixing), and base rows bind only base columns. -/
theorem claim3_left_join (base ext : Table) (onCols : List String)
    (hd : ∀ c ∈ right_nonkey_cols ext onCols, c ∉ base.cols)
    (hw : wf base) :
    left_join_spec base ext onCols := by
  refine ⟨?_, ?_, ?_, ?_⟩
  · -- (i) row count
    simp only [join_external, join_rows_left, List.length_flatMap]
    congr 1
    apply List.map_congr_left
    intro lr _
    by_cases hms : row_matches onCols lr ext.rows = []
    · simp [Function.comp, hms]
    · simp only [Function.comp]
      rw [if_neg hms, List.length_map]
      exact (max_eq_right (List.length_pos.mpr hms)).symm
  · -- (ii) base records retained
    intro lr hlr
    by_cases hms : row_matches onCols lr ext.rows = []
    · refine ⟨lr ++ (right_nonkey_cols ext onCols).map (fun c => (c, Cell.null)), ?_, ?_⟩
      · simp only [join_external, join_rows_left]
        exact List.mem_flatMap.mpr ⟨lr, hlr, by simp [hms]⟩
      · intro c hc
        exact base_cols_preserved base ext onCols hd lr _ c hc
    · obtain ⟨rr, hrr⟩ := List.exists_mem_of_ne_nil _ hms
      refine ⟨lr ++ (right_nonkey_cols ext onCols).map (fun c => (c, getC rr c)), ?_, ?_⟩
      · simp only [join_external, join_rows_left]
        refine List.mem_flatMap.mpr ⟨lr, hlr, ?_⟩
        simp only [if_neg hms]
        exact List.mem_map_of_mem _ hrr
      · intro c hc
        exact base_cols_preserved base ext onCols hd lr _ c hc
  · -- (iii) every result row from a base record
    intro tr htr
    simp only [join_external, join_rows_left] at htr
    obtain ⟨lr, hlr, hbr⟩ := List.mem_flatMap.mp htr
    refine ⟨lr, hlr, ?_⟩
    by_cases hms : row_matches onCols lr ext.rows = []
    · rw [if_pos hms] at hbr
      rcases List.mem_singleton.mp hbr with rfl
      intro c hc
      exact base_cols_preserved base ext onCols hd lr _ c hc
    · rw [if_neg hms] at hbr
      obtain ⟨rr, _, rfl⟩ := List.mem_map.mp hbr
      intro c hc
      exact base_cols_preserved base ext onCols hd lr _ c hc
  · -- (iv) unmatched base rows carry null external columns
    intro lr hlr hms
    refine ⟨lr ++ (right_nonkey_cols ext onCols).map (fun c => (c, Cell.null)), ?_, ?_, ?_⟩
    · simp only [join_external, join_rows_left]
      exact List.mem_flatMap.mpr ⟨lr, hlr, by simp [hms]⟩
    · intro c hc
      exact base_cols_preserved base ext onCols hd lr _ c hc
    · intro c hc
      exact getC_append_tabulate_of_mem lr _ _ c hc
        (fun p hp heq => hd c hc (heq ▸ hw lr hlr p hp))

/-- Base table with one record keyed `NOR`. -/
def baseFanout : Table :=
  { cols := ["country_iso3", "gdp"],
    rows := [[("country_iso3", Cell.str "NOR"), ("gdp", Cell.num 5)]] }

/-- External table with two records matching key `NOR`. -/
def extFanout : Table :=
  { cols := ["country_iso3", "covar"],
    rows := [[("country_iso3", Cell.str "NOR"), ("covar", Cell.num 1)],
             [("country_iso3", Cell.str "NOR"), ("covar", Cell.num 2)]] }

/-- C3, counterexample. The claim says every base record is retained exactly
once. False: a base record with two external matches onCols the key fans out to
two result rows (left-join cardinality), appearing twice. -/
theorem claim3_counterexample :
    baseFanout.rows.length = 1 ∧
    (join_external baseFanout extFanout ["country_iso3"]).rows.length = 2 ∧
    (join_external baseFanout extFanout ["country_iso3"]).rows.map
      (fun r => getC r "gdp") = [Cell.num 5, Cell.num 5] :=
  ⟨rfl, rfl, rfl⟩

/-- Base table with a matched and an unmatched record. -/
def baseW : Table :=
  { cols := ["country_iso3", "gdp"],
    rows := [[("country_iso3", Cell.str "NOR"), ("gdp", Cell.num 5)],
             [("country_iso3", Cell.str "FRA"), ("gdp", Cell.num 7)]] }

/-- External table matching only the `NOR` record. -/
def extW : Table :=
  { cols := ["country_iso3", "covar"],
    rows := [[("country_iso3", Cell.str "NOR"), ("covar", Cell.num 1)]] }

/-- C3, witness: the left-join contract at a concrete base/external pair with
one matched and one unmatched base record. -/
theorem claim3_witness : left_join_spec baseW extW ["country_iso3"] :=
  claim3_left_join baseW extW ["country_iso3"] (by decide) (by decide)

/-! ## Gap Reconciler (`data.py`, `gender_gap`) -/

/-- The merge keys of `gender_gap` (data.py line 45). -/
def keys3 : List String := ["country", "country_iso3", "year"]

/-- The fixed long-shape indicators (data.py line 46). -/
def indicators : List String :=
  ["prevalence_total", "prevalence_depression", "prevalence_anxiety"]

/-- Key columns absent from the table (the payload of the pandas `KeyError`
raised by `pivot_table(index=keys)` or `df[keys]`). -/
def missing_keys (df : Table) : List String :=
  keys3.filter (fun k => !(df.cols.contains k))

/-- First-occurrence deduplication with an accumulator of seen values. -/
def uniqFirst {α : Type} [DecidableEq α] : List α → List α → List α
  | [], _ => []
  | x :: xs, seen =>
    if x ∈ seen then uniqFirst xs seen else x :: uniqFirst xs (x :: seen)

/-- `str(c)` for a pivot column label coming from the `sex` cell. -/
def sex_label : Cell → String
  | Cell.str s => s
  | Cell.num q => toString q
  | Cell.null => ""

/-- NaN-propagating subtraction (pandas `-` on Series). -/
def cell_sub : Cell → Cell → Cell
  | Cell.num a, Cell.num b => Cell.num (a - b)
  | _, _ => Cell.null

/-- Rows entering `pivot_table(index=keys, columns="sex", ...)`: pandas
grouping drops rows null in any index key or in the `sex` grouper. -/
def pivot_valid_rows (df : Table) : List Row :=
  df.rows.filter (fun r =>
    keys3.all (fun k => decide (getC r k ≠ Cell.null)) &&
    decide (getC r "sex" ≠ Cell.null))

/-- The distinct key tuples of the pivot index, in order of first appearance
(pandas sorts the index; only membership matters to the claims). -/
def pivot_keys (df : Table) : List (List Cell) :=
  uniqFirst ((pivot_valid_rows df).map (fun r => keys3.map (getC r))) []

/-- The pivot's sex-derived column labels after the lowercasing rename
(data.py lines 52-53), restricted — per `pivot_table`'s default
`dropna=True`, which drops all-NaN columns — to labels contributed by at
least one non-null observation. Case-collapsing is applied at grouping;
the pandas duplicate-label corner (raw `"Male"` and `"male"` both present)
is degenerate in the source and outside the claims. -/
def sex_labels (df : Table) (name : String) : List String :=
  uniqFirst
    (((pivot_valid_rows df).filter
        (fun r => decide (toNum (getC r name) ≠ none))).map
      (fun r => pyLowerStr (sex_label (getC r "sex")))) []

/-- The observations of one `(key, sex)` group for an indicator. -/
def group_vals (df : Table) (name : String) (k : List Cell) (sv : String) :
    List ℚ :=
  ((pivot_valid_rows df).filter (fun r =>
    decide (keys3.map (getC r) = k) &&
    decide (pyLowerStr (sex_label (getC r "sex")) = sv))).filterMap
    (fun r => toNum (getC r name))

/-- `aggfunc="mean"` over a group: skip-null mean, null when empty. -/
def group_mean (df : Table) (name : String) (k : List Cell) (sv : String) :
    Cell :=
  let vs := group_vals df name k sv
  if vs = [] then Cell.null else Cell.num (vs.sum / (vs.length : ℚ))

/-- One row of a long-shape gap part: the key tuple plus
`female - male` (data.py lines 58-59). -/
def long_gap_row (df : Table) (name : String) (k : List Cell) : Row :=
  (keys3.zip k) ++
    [(name ++ "_gap_fm",
      cell_sub (group_mean df name k "female") (group_mean df name k "male"))]

/-- The long-shape pass for one indicator (data.py lines 50-61), after the
pivot key columns have been verified present: `some` part when both
`female` and `male` columns survive the pivot, `none` otherwise. -/
def long_part (df : Table) (name : String) : Option Table :=
  let sv := sex_labels df name
  if sv.contains "female" && sv.contains "male" then
    some (Table.mk (keys3 ++ [name ++ "_gap_fm"])
      ((pivot_keys df).map (long_gap_row df name)))
  else none

/-- The long-shape loop (data.py lines 48-61) over the indicator list,
accumulating produced parts and produced gap names; a missing pivot key
column raises `KeyError` at the first indicator that pivots. -/
def gg_long (df : Table) :
    List String → List Table → List String → Except PyExc (List Table × List String)
  | [], out, prod => Except.ok (out, prod)
  | name :: rest, out, prod =>
    if df.cols.contains "sex" && df.cols.contains name then
      if missing_keys df ≠ [] then Except.error (PyExc.keyError (missing_keys df))
      else
        match long_part df name with
        | none => gg_long df rest out prod
        | some t =>
          if prod.contains (name ++ "_gap_fm") then gg_long df rest out prod
          else gg_long df rest (out ++ [t]) (prod ++ [name ++ "_gap_fm"])
    else gg_long df rest out prod

/-- `male_col[:-5]`: drop the 5-character `_male` suffix. -/
def strip_male_sfx (mc : String) : String :=
  String.mk (mc.data.take (mc.data.length - 5))

/-- String suffix test over character lists. -/
def ends_with_s (s sfx : String) : Bool := sfx.data.isSuffixOf s.data

/-- Python `rstrip("_")`: drop every trailing underscore. -/
def rstrip_us (s : String) : String :=
  String.mk ((s.data.reverse.dropWhile (fun ch => ch == '_')).reverse)

/-- The wide-shape gap name (data.py lines 66-74): strip `_male`, strip any
trailing underscores, fall back to the raw stripped base when that empties,
then append `_gap_fm`. -/
def wide_gap_name (mc : String) : String :=
  let base := strip_male_sfx mc
  let ind := if ends_with_s base "_" then rstrip_us base else base
  (if ind = "" then base else ind) ++ "_gap_fm"

/-- One wide-shape part (data.py lines 77-78): `df[keys]` plus the row-wise
`female - male` column, over every row of the table. -/
def wide_part (df : Table) (mc : String) : Table :=
  Table.mk (keys3 ++ [wide_gap_name mc])
    (df.rows.map (fun r =>
      (keys3.map (fun c => (c, getC r c))) ++
      [(wide_gap_name mc,
        cell_sub (getC r (strip_male_sfx mc ++ "_female")) (getC r mc))]))

/-- The columns ending in `_male` (data.py line 64). -/
def male_cols (df : Table) : List String :=
  df.cols.filter (fun c => ends_with_s c "_male")

/-- The wide-shape loop (data.py lines 65-80): skip a male column without a
female sibling, skip a gap name already produced, otherwise `df[keys]`
raises `KeyError` when a key column is missing, else emit the part. -/
def gg_wide (df : Table) :
    List String → List Table → List String → Except PyExc (List Table × List String)
  | [], out, prod => Except.ok (out, prod)
  | mc :: rest, out, prod =>
    if !(df.cols.contains (strip_male_sfx mc ++ "_female")) then
      gg_wide df rest out prod
    else if prod.contains (wide_gap_name mc) then gg_wide df rest out prod
    else if missing_keys df ≠ [] then
      Except.error (PyExc.keyError (missing_keys df))
    else gg_wide df rest (out ++ [wide_part df mc]) (prod ++ [wide_gap_name mc])

/-- The rows of `pd.merge(l, r, on=onCols, how="outer")`: the left-join rows
followed by the unmatched right rows, whose left non-key columns are null. -/
def join_rows_outer (l r : Table) (onCols : List String) : List Row :=
  join_rows_left l r onCols ++
    ((r.rows.filter (fun rr =>
        !(l.rows.any (fun lr => keys_match onCols lr rr)))).map
      (fun rr =>
        (onCols.map (fun k => (k, getC rr k))) ++
        ((l.cols.filter (fun c => !(onCols.contains c))).map
          (fun c => (c, Cell.null))) ++
        ((right_nonkey_cols r onCols).map (fun c => (c, getC rr c)))))

/-- `pd.merge(l, r, on=onCols, how="outer")` (data.py line 87). -/
def outer_merge (l r : Table) (onCols : List String) : Table :=
  { cols := l.cols ++ right_nonkey_cols r onCols,
    rows := join_rows_outer l r onCols }

/-- The merge fold of `gender_gap` (data.py lines 85-87): start from the
first-produced part and outer-merge each subsequent part on the keys. -/
def merge_all : List Table → Table
  | [] => Table.mk [] []
  | first :: rest =>
    rest.foldl (fun res part => outer_merge res part keys3) first

/-- `gender_gap` (data.py lines 41-88): the long pass (only when a `sex`
column exists), then the wide pass over the `_male` columns, then the
empty-result guard (`DataShapeError`, a `ValueError` in the source), then
the outer-merge fold. -/
def gender_gap (df : Table) : Except PyExc Table :=
  match (if df.cols.contains "sex" then gg_long df indicators [] []
         else Except.ok ([], [])) with
  | Except.error e => Except.error e
  | Except.ok (out1, prod1) =>
    match gg_wide df (male_cols df) out1 prod1 with
    | Except.error e => Except.error e
    | Except.ok (out, _) =>
      if out = [] then
        Except.error (PyExc.valueError
          "Sex-stratified columns not found. Provide sex column or male/female pairs.")
      else Except.ok (merge_all out)

theorem gg_long_missing_err (df : Table) (hm : missing_keys df ≠ [])
    (hsex : df.cols.contains "sex" = true) :
    ∀ l out prod, (∃ n ∈ l, df.cols.contains n = true) →
      gg_long df l out prod = Except.error (PyExc.keyError (missing_keys df)) := by
  intro l
  induction l with
  | nil => rintro out prod ⟨n, hn, _⟩; cases hn
  | cons name rest ih =>
    rintro out prod ⟨n, hn, hcn⟩
    by_cases hname : df.cols.contains name = true
    · simp only [gg_long, hsex, hname, Bool.and_self, if_pos, if_pos hm]
    · rcases List.mem_cons.mp hn with rfl | hn'
      · exact absurd hcn hname
      · have hfalse : (df.cols.contains "sex" && df.cols.contains name) = false := by
          rw [Bool.eq_false_iff.mpr hname, Bool.and_false]
        simp only [gg_long, hfalse, Bool.false_eq_true, if_false]
        exact ih out prod ⟨n, hn', hcn⟩

theorem gg_long_skip_all (df : Table) :
    ∀ l out prod, (∀ n ∈ l, (df.cols.contains "sex" && df.cols.contains n) = false) →
      gg_long df l out prod = Except.ok (out, prod) := by
  intro l
  induction l with
  | nil => intro out prod _; rfl
  | cons name rest ih =>
    intro out prod h
    have h0 := h name (List.mem_cons_self _ _)
    simp only [gg_long, h0, Bool.false_eq_true, if_false]
    exact ih out prod (fun n hn => h n (List.mem_cons_of_mem _ hn))

theorem gg_wide_missing_err (df : Table) (hm : missing_keys df ≠ []) :
    ∀ mcs out, (∃ mc ∈ mcs, df.cols.contains (strip_male_sfx mc ++ "_female") = true) →
      gg_wide df mcs out [] = Except.error (PyExc.keyError (missing_keys df)) := by
  intro mcs
  induction mcs with
  | nil => rintro out ⟨mc, hmc, _⟩; cases hmc
  | cons mc rest ih =>
    rintro out ⟨mc', hmc', hf⟩
    by_cases hfem : df.cols.contains (strip_male_sfx mc ++ "_female") = true
    · simp only [gg_wide, hfem, Bool.not_true, Bool.false_eq_true, if_false,
        List.contains, List.elem_nil, if_pos hm]
    · rcases List.mem_cons.mp hmc' with rfl | hn'
      · exact absurd hf hfem
      · have hfalse : df.cols.contains (strip_male_sfx mc ++ "_female") = false :=
          Bool.eq_false_iff.mpr hfem
        simp only [gg_wide, hfalse, Bool.not_false, if_true]
        exact ih out ⟨mc', hn', hf⟩

/-- C9, confirmed. For every table carrying a sex-stratification signal — a
`sex` column together with one of the fixed indicators, or a `*_male` column
with its `*_female` sibling — but missing any of the key columns `country`,
`country_iso3`, `year`, `gender_gap` raises the pandas key-lookup error
(`KeyError` listing the missing keys), not the documented `DataShapeError`
and not an empty result: both the long-shape pivot and the wide-shape
`df[keys]` selection use all three key columns unconditionally. -/
theorem claim9_missing_keys_error (df : Table)
    (hsig : (df.cols.contains "sex" = true ∧
        ∃ n ∈ indicators, df.cols.contains n = true) ∨
      (∃ mc ∈ male_cols df,
        df.cols.contains (strip_male_sfx mc ++ "_female") = true))
    (hm : missing_keys df ≠ []) :
    gender_gap df = Except.error (PyExc.keyError (missing_keys df)) := by
  by_cases hsex : df.cols.contains "sex" = true
  · by_cases hind : ∃ n ∈ indicators, df.cols.contains n = true
    · have herr := gg_long_missing_err df hm hsex indicators [] [] hind
      simp only [gender_gap, hsex, if_true, herr]
    · have hskip : ∀ n ∈ indicators,
          (df.cols.contains "sex" && df.cols.contains n) = false := by
        intro n hn
        by_cases h : df.cols.contains n = true
        · exact absurd ⟨n, hn, h⟩ hind
        · rw [Bool.eq_false_iff.mpr h, Bool.and_false]
      have hok := gg_long_skip_all df indicators [] [] hskip
      have hpair : ∃ mc ∈ male_cols df,
          df.cols.contains (strip_male_sfx mc ++ "_female") = true := by
        rcases hsig with ⟨_, hind'⟩ | hp
        · exact absurd hind' hind
        · exact hp
      have herr := gg_wide_missing_err df hm (male_cols df) [] hpair
      simp only [gender_gap, hsex, if_true, hok, herr]
  · have hpair : ∃ mc ∈ male_cols df,
        df.cols.contains (strip_male_sfx mc ++ "_female") = true := by
      rcases hsig with ⟨hs, _⟩ | hp
      · exact absurd hs hsex
      · exact hp
    have herr := gg_wide_missing_err df hm (male_cols df) [] hpair
    simp only [gender_gap, hsex, Bool.false_eq_true, if_false, herr]

/-- A table with a matched wide pair but no `country_iso3` key column. -/
def dfNoIso : Table :=
  { cols := ["country", "year", "prevalence_male", "prevalence_female"],
    rows := [[("country", Cell.str "X"), ("year", Cell.num 2020),
      ("prevalence_male", Cell.num 4), ("prevalence_female", Cell.num 10)]] }

/-- C9, witness: the concrete table with a matched pair and a missing key
column makes `gender_gap` raise `KeyError` naming `country_iso3`. -/
theorem claim9_witness :
    gender_gap dfNoIso = Except.error (PyExc.keyError ["country_iso3"]) :=
  claim9_missing_keys_error dfNoIso
    (Or.inr ⟨"prevalence_male", by decide, by decide⟩) (by decide)

theorem gg_long_ok (df : Table) (hm : missing_keys df = []) :
    ∀ l out prod, ∃ out2 prod2,
      gg_long df l out prod = Except.ok (out2, prod2) ∧
      (∀ g ∈ prod2, g ∈ prod ∨ ∃ n ∈ l, g = n ++ "_gap_fm") := by
  intro l
  induction l with
  | nil => exact fun out prod => ⟨out, prod, rfl, fun g hg => Or.inl hg⟩
  | cons name rest ih =>
    intro out prod
    by_cases hcond : (df.cols.contains "sex" && df.cols.contains name) = true
    · have hmne : ¬ missing_keys df ≠ [] := fun h => h hm
      cases hlp : long_part df name with
      | none =>
        obtain ⟨out2, prod2, heq, hchar⟩ := ih out prod
        refine ⟨out2, prod2, ?_, ?_⟩
        · simp only [gg_long, hcond, if_true, if_neg hmne, hlp, heq]
        · intro g hg
          rcases hchar g hg with h | ⟨n, hn, hgn⟩
          · exact Or.inl h
          · exact Or.inr ⟨n, List.mem_cons_of_mem _ hn, hgn⟩
      | some t =>
        by_cases hpr : prod.contains (name ++ "_gap_fm") = true
        · obtain ⟨out2, prod2, heq, hchar⟩ := ih out prod
          refine ⟨out2, prod2, ?_, ?_⟩
          · simp only [gg_long, hcond, if_true, if_neg hmne, hlp, hpr, heq]
          · intro g hg
            rcases hchar g hg with h | ⟨n, hn, hgn⟩
            · exact Or.inl h
            · exact Or.inr ⟨n, List.mem_cons_of_mem _ hn, hgn⟩
        · obtain ⟨out2, prod2, heq, hchar⟩ :=
            ih (out ++ [t]) (prod ++ [name ++ "_gap_fm"])
          refine ⟨out2, prod2, ?_, ?_⟩
          · have hprf : prod.contains (name ++ "_gap_fm") = false :=
              Bool.eq_false_iff.mpr hpr
            simp only [gg_long, hcond, if_true, if_neg hmne, hlp, hprf,
              Bool.false_eq_true, if_false, heq]
          · intro g hg
            rcases hchar g hg with h | ⟨n, hn, hgn⟩
            · rcases List.mem_append.mp h with h' | h'
              · exact Or.inl h'
              · exact Or.inr ⟨name, List.mem_cons_self _ _,
                  List.mem_singleton.mp h'⟩
            · exact Or.inr ⟨n, List.mem_cons_of_mem _ hn, hgn⟩
    · obtain ⟨out2, prod2, heq, hchar⟩ := ih out prod
      have hcf : (df.cols.contains "sex" && df.cols.contains name) = false :=
        Bool.eq_false_iff.mpr hcond
      refine ⟨out2, prod2, ?_, ?_⟩
      · simp only [gg_long, hcf, Bool.false_eq_true, if_false, heq]
      · intro g hg
        rcases hchar g hg with h | ⟨n, hn, hgn⟩
        · exact Or.inl h
        · exact Or.inr ⟨n, List.mem_cons_of_mem _ hn, hgn⟩

theorem gg_wide_produces (df : Table) (hm : missing_keys df = [])
    (hf : df.cols.contains "prevalence_female" = true) :
    ∀ mcs out prod,
      ((∃ p ∈ out, "prevalence_gap_fm" ∈ p.cols) ∨
        (prod.contains "prevalence_gap_fm" = false ∧ "prevalence_male" ∈ mcs)) →
      ∃ out2 prod2, gg_wide df mcs out prod = Except.ok (out2, prod2) ∧
        ∃ p ∈ out2, "prevalence_gap_fm" ∈ p.cols := by
  intro mcs
  induction mcs with
  | nil =>
    rintro out prod (⟨p, hp, hc⟩ | ⟨_, hpm⟩)
    · exact ⟨out, prod, rfl, p, hp, hc⟩
    · cases hpm
  | cons mc rest ih =>
    rintro out prod hD
    by_cases hfem : df.cols.contains (strip_male_sfx mc ++ "_female") = true
    · by_cases hpr : prod.contains (wide_gap_name mc) = true
      · have hD' : (∃ p ∈ out, "prevalence_gap_fm" ∈ p.cols) ∨
            (prod.contains "prevalence_gap_fm" = false ∧ "prevalence_male" ∈ rest) := by
          rcases hD with h | ⟨hc0, hpm⟩
          · exact Or.inl h
          · refine Or.inr ⟨hc0, ?_⟩
            rcases List.mem_cons.mp hpm with rfl | h'
            · rw [show wide_gap_name "prevalence_male" = "prevalence_gap_fm"
                from rfl] at hpr
              rw [hpr] at hc0
              cases hc0
            · exact h'
        obtain ⟨out2, prod2, heq, hex⟩ := ih out prod hD'
        refine ⟨out2, prod2, ?_, hex⟩
        simp only [gg_wide, hfem, Bool.not_true, Bool.false_eq_true, if_false,
          hpr, if_true, heq]
      · have hmne : ¬ missing_keys df ≠ [] := fun h => h hm
        have hprf : prod.contains (wide_gap_name mc) = false :=
          Bool.eq_false_iff.mpr hpr
        by_cases hgn : wide_gap_name mc = "prevalence_gap_fm"
        · have hD' : (∃ p ∈ out ++ [wide_part df mc], "prevalence_gap_fm" ∈ p.cols) ∨
              ((prod ++ [wide_gap_name mc]).contains "prevalence_gap_fm" = false ∧
                "prevalence_male" ∈ rest) := by
            refine Or.inl ⟨wide_part df mc, List.mem_append_right _
              (List.mem_singleton.mpr rfl), ?_⟩
            show "prevalence_gap_fm" ∈ keys3 ++ [wide_gap_name mc]
            exact List.mem_append_right _ (List.mem_singleton.mpr hgn.symm)
          obtain ⟨out2, prod2, heq, hex⟩ :=
            ih (out ++ [wide_part df mc]) (prod ++ [wide_gap_name mc]) hD'
          refine ⟨out2, prod2, ?_, hex⟩
          simp only [gg_wide, hfem, Bool.not_true, Bool.false_eq_true, if_false,
            hprf, if_neg hmne, heq]
        · have hD' : (∃ p ∈ out ++ [wide_part df mc], "prevalence_gap_fm" ∈ p.cols) ∨
              ((prod ++ [wide_gap_name mc]).contains "prevalence_gap_fm" = false ∧
                "prevalence_male" ∈ rest) := by
            rcases hD with ⟨p, hp, hc⟩ | ⟨hc0, hpm⟩
            · exact Or.inl ⟨p, List.mem_append_left _ hp, hc⟩
            · refine Or.inr ⟨?_, ?_⟩
              · have h1 : "prevalence_gap_fm" ∉ prod := by simpa using hc0
                have : "prevalence_gap_fm" ∉ prod ++ [wide_gap_name mc] := by
                  intro hmem
                  rcases List.mem_append.mp hmem with h' | h'
                  · exact h1 h'
                  · exact hgn (List.mem_singleton.mp h').symm
                simpa using this
              · rcases List.mem_cons.mp hpm with rfl | h'
                · exact absurd (show wide_gap_name "prevalence_male" =
                    "prevalence_gap_fm" from rfl) hgn
                · exact h'
          obtain ⟨out2, prod2, heq, hex⟩ :=
            ih (out ++ [wide_part df mc]) (prod ++ [wide_gap_name mc]) hD'
          refine ⟨out2, prod2, ?_, hex⟩
          simp only [gg_wide, hfem, Bool.not_true, Bool.false_eq_true, if_false,
            hprf, if_neg hmne, heq]
    · have hD' : (∃ p ∈ out, "prevalence_gap_fm" ∈ p.cols) ∨
          (prod.contains "prevalence_gap_fm" = false ∧ "prevalence_male" ∈ rest) := by
        rcases hD with h | ⟨hc0, hpm⟩
        · exact Or.inl h
        · refine Or.inr ⟨hc0, ?_⟩
          rcases List.mem_cons.mp hpm with rfl | h'
          · exact absurd hf hfem
          · exact h'
      obtain ⟨out2, prod2, heq, hex⟩ := ih out prod hD'
      refine ⟨out2, prod2, ?_, hex⟩
      have hff : df.cols.contains (strip_male_sfx mc ++ "_female") = false :=
        Bool.eq_false_iff.mpr hfem
      simp only [gg_wide, hff, Bool.not_false, if_true, heq]

theorem fold_col_mono (rest : List Table) :
    ∀ acc c, c ∈ acc.cols →
      c ∈ (rest.foldl (fun res part => outer_merge res part keys3) acc).cols := by
  induction rest with
  | nil => exact fun acc c hc => hc
  | cons r rest' ih =>
    intro acc c hc
    exact ih (outer_merge acc r keys3) c (List.mem_append_left _ hc)

theorem fold_col_part (rest : List Table) :
    ∀ acc c, (∃ p ∈ rest, c ∈ p.cols) → c ∉ keys3 →
      c ∈ (rest.foldl (fun res part => outer_merge res part keys3) acc).cols := by
  induction rest with
  | nil => rintro acc c ⟨p, hp, _⟩ _; cases hp
  | cons r rest' ih =>
    rintro acc c ⟨p, hp, hc⟩ hck
    rcases List.mem_cons.mp hp with rfl | hp'
    · rw [List.foldl_cons]
      apply fold_col_mono
      apply List.mem_append_right
      rw [right_nonkey_cols, List.mem_filter]
      exact ⟨hc, by simpa using hck⟩
    · rw [List.foldl_cons]
      exact ih (outer_merge acc r keys3) c ⟨p, hp', hc⟩ hck

theorem merge_all_col (parts : List Table) (p : Table) (c : String)
    (hp : p ∈ parts) (hc : c ∈ p.cols) (hck : c ∉ keys3) :
    c ∈ (merge_all parts).cols := by
  cases parts with
  | nil => cases hp
  | cons first rest =>
    rcases List.mem_cons.mp hp with rfl | hp'
    · exact fold_col_mono rest p c hc
    · exact fold_col_part rest first c ⟨p, hp', hc⟩ hck

/-- C10, confirmed. With the key columns present and the canonical pair
`prevalence_male`/`prevalence_female` in the table, the wide pass's gap name
for this pair is exactly `prevalence_gap_fm` (the `_male` suffix stripped),
which differs from the long pass's `prevalence_total_gap_fm`; consequently
the produced-set deduplication never suppresses a wide-shape
`prevalence_gap_fm` column: `gender_gap` succeeds and its result carries
that column (also when the long pass emitted a total-prevalence gap). -/
theorem claim10_wide_gap_distinct (df : Table)
    (hm : missing_keys df = [])
    (hmale : df.cols.contains "prevalence_male" = true)
    (hf : df.cols.contains "prevalence_female" = true) :
    wide_gap_name "prevalence_male" = "prevalence_gap_fm" ∧
    ("prevalence_gap_fm" : String) ≠ "prevalence_total_gap_fm" ∧
    ∃ t, gender_gap df = Except.ok t ∧ "prevalence_gap_fm" ∈ t.cols := by
  refine ⟨rfl, by decide, ?_⟩
  have hpm_mem : "prevalence_male" ∈ male_cols df := by
    rw [male_cols, List.mem_filter]
    exact ⟨by simpa using hmale, by decide⟩
  by_cases hsex : df.cols.contains "sex" = true
  · obtain ⟨out1, prod1, heq1, hchar⟩ := gg_long_ok df hm indicators [] []
    have hc0 : prod1.contains "prevalence_gap_fm" = false := by
      by_cases hc : "prevalence_gap_fm" ∈ prod1
      · rcases hchar _ hc with h | ⟨n, hn, hgn⟩
        · cases h
        · exfalso
          have hn3 : n = "prevalence_total" ∨ n = "prevalence_depression" ∨
              n = "prevalence_anxiety" := by simpa [indicators] using hn
          rcases hn3 with rfl | rfl | rfl
          · exact absurd hgn (by decide)
          · exact absurd hgn (by decide)
          · exact absurd hgn (by decide)
      · simpa using hc
    obtain ⟨out2, prod2, heq2, p, hp, hpc⟩ :=
      gg_wide_produces df hm hf (male_cols df) out1 prod1
        (Or.inr ⟨hc0, hpm_mem⟩)
    have hne : out2 ≠ [] := List.ne_nil_of_mem hp
    refine ⟨merge_all out2, ?_, ?_⟩
    · simp only [gender_gap, hsex, if_true, heq1, heq2, if_neg hne]
    · exact merge_all_col out2 p _ hp hpc (by decide)
  · obtain ⟨out2, prod2, heq2, p, hp, hpc⟩ :=
      gg_wide_produces df hm hf (male_cols df) [] []
        (Or.inr ⟨rfl, hpm_mem⟩)
    have hne : out2 ≠ [] := List.ne_nil_of_mem hp
    have hsexf : df.cols.contains "sex" = false := Bool.eq_false_iff.mpr hsex
    refine ⟨merge_all out2, ?_, ?_⟩
    · simp only [gender_gap, hsexf, Bool.false_eq_true, if_false, heq2,
        if_neg hne]
    · exact merge_all_col out2 p _ hp hpc (by decide)

/-- A table exercising both passes: a `sex` column with `prevalence_total`
(long shape) plus the `prevalence_male`/`prevalence_female` pair (wide). -/
def dfBothShapes : Table :=
  { cols := ["country", "country_iso3", "year", "sex", "prevalence_total",
      "prevalence_male", "prevalence_female"],
    rows :=
      [[("country", Cell.str "X"), ("country_iso3", Cell.str "XXX"),
        ("year", Cell.num 2020), ("sex", Cell.str "Male"),
        ("prevalence_total", Cell.num 10), ("prevalence_male", Cell.num 10),
        ("prevalence_female", Cell.num 16)],
       [("country", Cell.str "X"), ("country_iso3", Cell.str "XXX"),
        ("year", Cell.num 2020), ("sex", Cell.str "Female"),
        ("prevalence_total", Cell.num 16), ("prevalence_male", Cell.num 10),
        ("prevalence_female", Cell.num 16)]] }

/-- C10, witness: on a table feeding both passes, `gender_gap` succeeds with
a result carrying the wide-shape `prevalence_gap_fm` column. -/
theorem claim10_witness :
    wide_gap_name "prevalence_male" = "prevalence_gap_fm" ∧
    ("prevalence_gap_fm" : String) ≠ "prevalence_total_gap_fm" ∧
    ∃ t, gender_gap dfBothShapes = Except.ok t ∧
      "prevalence_gap_fm" ∈ t.cols :=
  claim10_wide_gap_distinct dfBothShapes (by decide) (by decide) (by decide)

/-! ## Merge coverage (C5 machinery) -/

/-- The merge-key tuple of a row. -/
def keyTuple (r : Row) : List Cell := keys3.map (getC r)

/-- The key tuples of a table's rows. -/
def keySetOf (t : Table) : List (List Cell) := t.rows.map keyTuple

/-- The shape of a gap table the Reconciler produces for one indicator:
the three merge keys plus one gap column, with rows binding only those. -/
def gap_shaped (p : Table) (g : String) : Prop :=
  p.cols = keys3 ++ [g] ∧ g ∉ keys3 ∧ wf p

instance gap_shaped_decidable (p : Table) (g : String) :
    Decidable (gap_shaped p g) := by
  unfold gap_shaped; infer_instance

/-- The merge fold of `gender_gap`, generalized over the accumulator. -/
def fold_merge (acc : Table) (rest : List (Table × String)) : Table :=
  rest.foldl (fun a pg => outer_merge a pg.1 keys3) acc

theorem rnon_gap (r : Table) (g : String) (hr : r.cols = keys3 ++ [g])
    (hg : g ∉ keys3) : right_nonkey_cols r keys3 = [g] := by
  have h2 : keys3.contains g = false := by simpa using hg
  rw [right_nonkey_cols, hr, List.filter_append]
  have h1 : keys3.filter (fun c => !(keys3.contains c)) = [] := by decide
  rw [h1]
  simp only [List.nil_append, List.filter_cons]
  rw [h2]
  rfl

theorem keyTuple_append_single (lr : Row) (g : String) (f : String → Cell)
    (hg : g ∉ keys3) :
    keyTuple (lr ++ [g].map (fun c => (c, f c))) = keyTuple lr := by
  unfold keyTuple
  apply List.map_congr_left
  intro k hk
  refine getC_append_tabulate_of_not_mem lr [g] f k ?_
  intro hmem
  have := List.mem_singleton.mp hmem
  subst this
  exact hg hk

theorem keyTuple_keys_tab (rr : Row) (rest : Row) :
    keyTuple ((keys3.map (fun k => (k, getC rr k))) ++ rest) = keyTuple rr := by
  unfold keyTuple
  apply List.map_congr_left
  intro k hk
  exact getC_append_left _ rest k _ (lookup_tabulate _ keys3 k hk)

theorem getC_tabulate_append_of_not_mem (ks : List String) (f : String → Cell)
    (rest : Row) (c : String) (hc : c ∉ ks) :
    getC ((ks.map (fun k => (k, f k))) ++ rest) c = getC rest c := by
  unfold getC
  rw [lookup_append, lookup_tabulate_none f ks c hc]
  simp [Option.orElse]

theorem keys_match_iff (lr rr : Row) :
    keys_match keys3 lr rr = true ↔ keyTuple lr = keyTuple rr := by
  unfold keys_match keyTuple
  constructor
  · intro h
    apply List.map_congr_left
    intro k hk
    exact of_decide_eq_true (List.all_eq_true.mp h k hk)
  · intro h
    rw [List.all_eq_true]
    intro k hk
    exact decide_eq_true (List.map_eq_map_iff.mp h k hk)

theorem outer_merge_cols (l r : Table) (g : String)
    (hr : r.cols = keys3 ++ [g]) (hg : g ∉ keys3) :
    (outer_merge l r keys3).cols = l.cols ++ [g] := by
  show l.cols ++ right_nonkey_cols r keys3 = l.cols ++ [g]
  rw [rnon_gap r g hr hg]

theorem outer_merge_keys (l r : Table) (g : String)
    (hr : r.cols = keys3 ++ [g]) (hg : g ∉ keys3) :
    ∀ k, k ∈ keySetOf (outer_merge l r keys3) ↔
      (k ∈ keySetOf l ∨ k ∈ keySetOf r) := by
  intro k
  have hrnon := rnon_gap r g hr hg
  constructor
  · intro hk
    obtain ⟨tr, htr, rfl⟩ := List.mem_map.mp hk
    rcases List.mem_append.mp htr with htr | htr
    · simp only [join_rows_left] at htr
      obtain ⟨lr, hlr, hbr⟩ := List.mem_flatMap.mp htr
      by_cases hms : row_matches keys3 lr r.rows = []
      · rw [if_pos hms] at hbr
        have := List.mem_singleton.mp hbr
        subst this
        rw [hrnon, keyTuple_append_single lr g _ hg]
        exact Or.inl (List.mem_map_of_mem _ hlr)
      · rw [if_neg hms] at hbr
        obtain ⟨rr, hrr, rfl⟩ := List.mem_map.mp hbr
        rw [hrnon, keyTuple_append_single lr g _ hg]
        exact Or.inl (List.mem_map_of_mem _ hlr)
    · obtain ⟨rr, hrr, rfl⟩ := List.mem_map.mp htr
      rw [List.append_assoc, keyTuple_keys_tab]
      exact Or.inr (List.mem_map_of_mem _ (List.mem_filter.mp hrr).1)
  · intro hk
    rcases hk with hk | hk
    · obtain ⟨lr, hlr, rfl⟩ := List.mem_map.mp hk
      by_cases hms : row_matches keys3 lr r.rows = []
      · refine List.mem_map.mpr
          ⟨lr ++ (right_nonkey_cols r keys3).map (fun c => (c, Cell.null)),
            ?_, ?_⟩
        · apply List.mem_append_left
          simp only [join_rows_left]
          exact List.mem_flatMap.mpr ⟨lr, hlr, by simp [hms]⟩
        · rw [hrnon, keyTuple_append_single lr g _ hg]
      · obtain ⟨rr, hrr⟩ := List.exists_mem_of_ne_nil _ hms
        refine List.mem_map.mpr
          ⟨lr ++ (right_nonkey_cols r keys3).map (fun c => (c, getC rr c)),
            ?_, ?_⟩
        · apply List.mem_append_left
          simp only [join_rows_left]
          refine List.mem_flatMap.mpr ⟨lr, hlr, ?_⟩
          rw [if_neg hms]
          exact List.mem_map_of_mem _ hrr
        · rw [hrnon, keyTuple_append_single lr g _ hg]
    · obtain ⟨rr, hrr, rfl⟩ := List.mem_map.mp hk
      by_cases hmatched : ∃ lr ∈ l.rows, keys_match keys3 lr rr = true
      · obtain ⟨lr, hlr, hkm⟩ := hmatched
        have hkt : keyTuple lr = keyTuple rr := (keys_match_iff lr rr).mp hkm
        have hrrm : rr ∈ row_matches keys3 lr r.rows :=
          List.mem_filter.mpr ⟨hrr, hkm⟩
        have hms : row_matches keys3 lr r.rows ≠ [] := List.ne_nil_of_mem hrrm
        refine List.mem_map.mpr
          ⟨lr ++ (right_nonkey_cols r keys3).map (fun c => (c, getC rr c)),
            ?_, ?_⟩
        · apply List.mem_append_left
          simp only [join_rows_left]
          refine List.mem_flatMap.mpr ⟨lr, hlr, ?_⟩
          rw [if_neg hms]
          exact List.mem_map_of_mem _ hrrm
        · rw [hrnon, keyTuple_append_single lr g _ hg, hkt]
      · have hunm : (l.rows.any (fun lr => keys_match keys3 lr rr)) = false := by
          rw [List.any_eq_false]
          intro lr hlr hkm
          exact hmatched ⟨lr, hlr, hkm⟩
        refine List.mem_map.mpr
          ⟨_, List.mem_append_right _ (List.mem_map.mpr
            ⟨rr, List.mem_filter.mpr ⟨hrr, by rw [hunm]; rfl⟩, rfl⟩), ?_⟩
        rw [List.append_assoc, keyTuple_keys_tab]

theorem outer_merge_wf (l r : Table) (g : String)
    (hr : r.cols = keys3 ++ [g]) (hg : g ∉ keys3) (hwl : wf l)
    (hlk : ∀ k ∈ keys3, k ∈ l.cols) :
    wf (outer_merge l r keys3) := by
  intro tr htr p hp
  have hrnon := rnon_gap r g hr hg
  show p.1 ∈ l.cols ++ right_nonkey_cols r keys3
  rcases List.mem_append.mp htr with htr | htr
  · simp only [join_rows_left] at htr
    obtain ⟨lr, hlr, hbr⟩ := List.mem_flatMap.mp htr
    by_cases hms : row_matches keys3 lr r.rows = []
    · rw [if_pos hms] at hbr
      have := List.mem_singleton.mp hbr
      subst this
      rcases List.mem_append.mp hp with hp | hp
      · exact List.mem_append_left _ (hwl lr hlr p hp)
      · obtain ⟨c, hc, rfl⟩ := List.mem_map.mp hp
        exact List.mem_append_right _ hc
    · rw [if_neg hms] at hbr
      obtain ⟨rr, hrr, rfl⟩ := List.mem_map.mp hbr
      rcases List.mem_append.mp hp with hp | hp
      · exact List.mem_append_left _ (hwl lr hlr p hp)
      · obtain ⟨c, hc, rfl⟩ := List.mem_map.mp hp
        exact List.mem_append_right _ hc
  · obtain ⟨rr, hrr, rfl⟩ := List.mem_map.mp htr
    rcases List.mem_append.mp hp with hp | hp
    · rcases List.mem_append.mp hp with hp | hp
      · obtain ⟨c, hc, rfl⟩ := List.mem_map.mp hp
        exact List.mem_append_left _ (hlk c hc)
      · obtain ⟨c, hc, rfl⟩ := List.mem_map.mp hp
        exact List.mem_append_left _ (List.mem_filter.mp hc).1
    · obtain ⟨c, hc, rfl⟩ := List.mem_map.mp hp
      exact List.mem_append_right _ hc

theorem outer_merge_null_new (l r : Table) (g : String)
    (hr : r.cols = keys3 ++ [g]) (hg : g ∉ keys3) (hgl : g ∉ l.cols)
    (hwl : wf l) :
    ∀ tr ∈ (outer_merge l r keys3).rows,
      keyTuple tr ∉ keySetOf r → getC tr g = Cell.null := by
  intro tr htr hknot
  have hrnon := rnon_gap r g hr hg
  rcases List.mem_append.mp htr with htr | htr
  · simp only [join_rows_left] at htr
    obtain ⟨lr, hlr, hbr⟩ := List.mem_flatMap.mp htr
    by_cases hms : row_matches keys3 lr r.rows = []
    · rw [if_pos hms] at hbr
      have := List.mem_singleton.mp hbr
      subst this
      rw [hrnon]
      exact getC_append_tabulate_of_mem lr [g] _ g
        (List.mem_singleton.mpr rfl)
        (fun p hp heq => hgl (heq ▸ hwl lr hlr p hp))
    · rw [if_neg hms] at hbr
      obtain ⟨rr, hrr, rfl⟩ := List.mem_map.mp hbr
      exfalso
      apply hknot
      rw [hrnon, keyTuple_append_single lr g _ hg,
        (keys_match_iff lr rr).mp (List.mem_filter.mp hrr).2]
      exact List.mem_map_of_mem _ (List.mem_filter.mp (List.mem_filter.mpr
        ⟨(List.mem_filter.mp hrr).1, (List.mem_filter.mp hrr).2⟩)).1
  · obtain ⟨rr, hrr, rfl⟩ := List.mem_map.mp htr
    exfalso
    apply hknot
    rw [List.append_assoc, keyTuple_keys_tab]
    exact List.mem_map_of_mem _ (List.mem_filter.mp hrr).1

theorem outer_merge_null_preserve (l r : Table) (g : String)
    (hr : r.cols = keys3 ++ [g]) (hg : g ∉ keys3) (c : String)
    (hcl : c ∈ l.cols) (hck : c ∉ keys3) (hcg : c ≠ g)
    (S : List (List Cell))
    (hprev : ∀ lr ∈ l.rows, keyTuple lr ∉ S → getC lr c = Cell.null) :
    ∀ tr ∈ (outer_merge l r keys3).rows,
      keyTuple tr ∉ S → getC tr c = Cell.null := by
  intro tr htr hnot
  have hrnon := rnon_gap r g hr hg
  have hcnotg : c ∉ ([g] : List String) := by
    intro hmem
    exact hcg (List.mem_singleton.mp hmem)
  rcases List.mem_append.mp htr with htr | htr
  · simp only [join_rows_left] at htr
    obtain ⟨lr, hlr, hbr⟩ := List.mem_flatMap.mp htr
    by_cases hms : row_matches keys3 lr r.rows = []
    · rw [if_pos hms] at hbr
      have := List.mem_singleton.mp hbr
      subst this
      rw [hrnon, getC_append_tabulate_of_not_mem lr [g] _ c hcnotg]
      apply hprev lr hlr
      rw [hrnon, keyTuple_append_single lr g _ hg] at hnot
      exact hnot
    · rw [if_neg hms] at hbr
      obtain ⟨rr, hrr, rfl⟩ := List.mem_map.mp hbr
      rw [hrnon, getC_append_tabulate_of_not_mem lr [g] _ c hcnotg]
      apply hprev lr hlr
      rw [hrnon, keyTuple_append_single lr g _ hg] at hnot
      exact hnot
  · obtain ⟨rr, hrr, rfl⟩ := List.mem_map.mp htr
    rw [List.append_assoc, getC_tabulate_append_of_not_mem keys3 _ _ c hck]
    have hclnon : c ∈ l.cols.filter (fun x => !(keys3.contains x)) :=
      List.mem_filter.mpr ⟨hcl, by simpa using hck⟩
    exact getC_append_left _ _ c Cell.null
      (lookup_tabulate (fun _ => Cell.null) _ c hclnon)

theorem fold_merge_main (rest : List (Table × String)) :
    ∀ (acc : Table) (gaps : List String),
      acc.cols = keys3 ++ gaps →
      wf acc →
      (∀ pg ∈ rest, gap_shaped pg.1 pg.2) →
      (∀ pg ∈ rest, pg.2 ∉ gaps) →
      (rest.map Prod.snd).Nodup →
      ((fold_merge acc rest).cols = keys3 ++ (gaps ++ rest.map Prod.snd)) ∧
      wf (fold_merge acc rest) ∧
      (∀ k, k ∈ keySetOf (fold_merge acc rest) ↔
        (k ∈ keySetOf acc ∨ ∃ pg ∈ rest, k ∈ keySetOf pg.1)) ∧
      (∀ c, c ∈ acc.cols → c ∉ keys3 →
        ∀ S : List (List Cell),
          (∀ lr ∈ acc.rows, keyTuple lr ∉ S → getC lr c = Cell.null) →
          (∀ tr ∈ (fold_merge acc rest).rows,
            keyTuple tr ∉ S → getC tr c = Cell.null)) ∧
      (∀ pg ∈ rest, ∀ tr ∈ (fold_merge acc rest).rows,
        keyTuple tr ∉ keySetOf pg.1 → getC tr pg.2 = Cell.null) := by
  induction rest with
  | nil =>
    intro acc gaps hcols hwf _ _ _
    refine ⟨by simpa using hcols, hwf, ?_, ?_, ?_⟩
    · intro k
      constructor
      · exact Or.inl
      · rintro (hk | ⟨pg, hpg, _⟩)
        · exact hk
        · cases hpg
    · intro c _ _ S hS tr htr hnot
      exact hS tr htr hnot
    · rintro pg hpg
      cases hpg
  | cons pg rest' ih =>
    intro acc gaps hcols hwf hshape hfresh hnodup
    obtain ⟨hrcols, hgk, hwr⟩ := hshape pg (List.mem_cons_self _ _)
    have hgl : pg.2 ∉ acc.cols := by
      rw [hcols]
      intro hmem
      rcases List.mem_append.mp hmem with h | h
      · exact hgk h
      · exact hfresh pg (List.mem_cons_self _ _) h
    have hlk : ∀ k ∈ keys3, k ∈ acc.cols := by
      intro k hk
      rw [hcols]
      exact List.mem_append_left _ hk
    have hcols' : (outer_merge acc pg.1 keys3).cols = keys3 ++ (gaps ++ [pg.2]) := by
      rw [outer_merge_cols acc pg.1 pg.2 hrcols hgk, hcols, List.append_assoc]
    have hwf' : wf (outer_merge acc pg.1 keys3) :=
      outer_merge_wf acc pg.1 pg.2 hrcols hgk hwf hlk
    have hshape' : ∀ q ∈ rest', gap_shaped q.1 q.2 :=
      fun q hq => hshape q (List.mem_cons_of_mem _ hq)
    rw [List.map_cons] at hnodup
    have hnodup' := List.nodup_cons.mp hnodup
    have hfresh' : ∀ q ∈ rest', q.2 ∉ gaps ++ [pg.2] := by
      intro q hq hmem
      rcases List.mem_append.mp hmem with h | h
      · exact hfresh q (List.mem_cons_of_mem _ hq) h
      · have hq2 : q.2 = pg.2 := List.mem_singleton.mp h
        exact hnodup'.1 (hq2 ▸ List.mem_map_of_mem Prod.snd hq)
    obtain ⟨C1, C2, C3, C4, C5⟩ :=
      ih (outer_merge acc pg.1 keys3) (gaps ++ [pg.2]) hcols' hwf' hshape'
        hfresh' hnodup'.2
    have hfold : fold_merge acc (pg :: rest') =
        fold_merge (outer_merge acc pg.1 keys3) rest' := rfl
    refine ⟨?_, ?_, ?_, ?_, ?_⟩
    · rw [hfold, C1]
      simp [List.append_assoc]
    · rw [hfold]; exact C2
    · intro k
      rw [hfold, C3 k]
      have hmk := outer_merge_keys acc pg.1 pg.2 hrcols hgk k
      constructor
      · rintro (hk | ⟨q, hq, hk⟩)
        · rcases hmk.mp hk with h | h
          · exact Or.inl h
          · exact Or.inr ⟨pg, List.mem_cons_self _ _, h⟩
        · exact Or.inr ⟨q, List.mem_cons_of_mem _ hq, hk⟩
      · rintro (hk | ⟨q, hq, hk⟩)
        · exact Or.inl (hmk.mpr (Or.inl hk))
        · rcases List.mem_cons.mp hq with rfl | hq'
          · exact Or.inl (hmk.mpr (Or.inr hk))
          · exact Or.inr ⟨q, hq', hk⟩
    · intro c hc hck S hS
      have hcg : c ≠ pg.2 := fun heq => hgl (heq ▸ hc)
      have hstep := outer_merge_null_preserve acc pg.1 pg.2 hrcols hgk c hc
        hck hcg S hS
      have hc' : c ∈ (outer_merge acc pg.1 keys3).cols := by
        rw [outer_merge_cols acc pg.1 pg.2 hrcols hgk]
        exact List.mem_append_left _ hc
      rw [hfold]
      exact C4 c hc' hck S hstep
    · intro q hq
      rcases List.mem_cons.mp hq with rfl | hq'
      · have hnew := outer_merge_null_new acc q.1 q.2 hrcols hgk hgl hwf
        have hc' : q.2 ∈ (outer_merge acc q.1 keys3).cols := by
          rw [outer_merge_cols acc q.1 q.2 hrcols hgk]
          exact List.mem_append_right _ (List.mem_singleton.mpr rfl)
        rw [hfold]
        exact C4 q.2 hc' hgk (keySetOf q.1) hnew
      · rw [hfold]
        exact C5 q hq'

/-- The merge-coverage contract over a list of produced gap tables, each
paired with its gap column name: the merged result's key set is exactly the
union of the parts' key sets, and for every part, every merged row whose key
the part does not cover is null in that part's gap column. -/
def merge_coverage (parts : List (Table × String)) : Prop :=
  (∀ k, k ∈ keySetOf (merge_all (parts.map Prod.fst)) ↔
    ∃ pg ∈ parts, k ∈ keySetOf pg.1) ∧
  (∀ pg ∈ parts, ∀ tr ∈ (merge_all (parts.map Prod.fst)).rows,
    keyTuple tr ∉ keySetOf pg.1 → getC tr pg.2 = Cell.null)

/-- C5, confirmed. When two or more gap tables are produced — each keyed on
(country, country_iso3, year) with a single gap column, the gap names
pairwise distinct (the produced-set guarantees this in `gender_gap`) — the
chained outer merge yields a table whose key set is the union of the parts'
key sets, with nulls in an indicator's gap column at every key that
indicator does not cover: no indicator's row coverage is truncated by
another indicator's missing rows. -/
theorem claim5_merge_coverage (parts : List (Table × String))
    (h2 : 2 ≤ parts.length)
    (hshape : ∀ pg ∈ parts, gap_shaped pg.1 pg.2)
    (hdist : (parts.map Prod.snd).Nodup) :
    merge_coverage parts := by
  cases parts with
  | nil => simp at h2
  | cons p0 ps =>
    have hma : merge_all ((p0 :: ps).map Prod.fst) = fold_merge p0.1 ps := by
      simp only [List.map_cons, merge_all, fold_merge]
      exact List.foldl_map _ _ _ _
    obtain ⟨g0cols, hg0k, hw0⟩ := hshape p0 (List.mem_cons_self _ _)
    rw [List.map_cons] at hdist
    have hnd := List.nodup_cons.mp hdist
    obtain ⟨M1, M2, M3, M4, M5⟩ :=
      fold_merge_main ps p0.1 [p0.2] (by rw [g0cols]) hw0
        (fun pg hpg => hshape pg (List.mem_cons_of_mem _ hpg))
        (fun pg hpg hmem => hnd.1
          ((List.mem_singleton.mp hmem) ▸ List.mem_map_of_mem Prod.snd hpg))
        hnd.2
    constructor
    · intro k
      rw [hma, M3 k]
      constructor
      · rintro (hk | ⟨pg, hpg, hk⟩)
        · exact ⟨p0, List.mem_cons_self _ _, hk⟩
        · exact ⟨pg, List.mem_cons_of_mem _ hpg, hk⟩
      · rintro ⟨pg, hpg, hk⟩
        rcases List.mem_cons.mp hpg with rfl | h'
        · exact Or.inl hk
        · exact Or.inr ⟨pg, h', hk⟩
    · intro pg hpg tr htr hknot
      rw [hma] at htr
      rcases List.mem_cons.mp hpg with rfl | h'
      · refine M4 pg.2 ?_ hg0k (keySetOf pg.1) ?_ tr htr hknot
        · rw [g0cols]
          exact List.mem_append_right _ (List.mem_singleton.mpr rfl)
        · intro lr hlr hn
          exact absurd (List.mem_map_of_mem keyTuple hlr) hn
      · exact M5 pg h' tr htr hknot

/-- Gap table for indicator A, covering years 2019 and 2020. -/
def gapA : Table :=
  { cols := ["country", "country_iso3", "year", "prevalence_depression_gap_fm"],
    rows :=
      [[("country", Cell.str "X"), ("country_iso3", Cell.str "XXX"),
        ("year", Cell.num 2019), ("prevalence_depression_gap_fm", Cell.num 1)],
       [("country", Cell.str "X"), ("country_iso3", Cell.str "XXX"),
        ("year", Cell.num 2020), ("prevalence_depression_gap_fm", Cell.num 2)]] }

/-- Gap table for indicator B, covering years 2020 and 2021. -/
def gapB : Table :=
  { cols := ["country", "country_iso3", "year", "prevalence_anxiety_gap_fm"],
    rows :=
      [[("country", Cell.str "X"), ("country_iso3", Cell.str "XXX"),
        ("year", Cell.num 2020), ("prevalence_anxiety_gap_fm", Cell.num 3)],
       [("country", Cell.str "X"), ("country_iso3", Cell.str "XXX"),
        ("year", Cell.num 2021), ("prevalence_anxiety_gap_fm", Cell.num 4)]] }

/-- C5, witness: the coverage contract at the spec's example — indicator A
with years {2019, 2020} and indicator B with years {2020, 2021} merge to
cover {2019, 2020, 2021} with nulls where an indicator has no data. -/
theorem claim5_witness :
    merge_coverage [(gapA, "prevalence_depression_gap_fm"),
      (gapB, "prevalence_anxiety_gap_fm")] :=
  claim5_merge_coverage
    [(gapA, "prevalence_depression_gap_fm"),
      (gapB, "prevalence_anxiety_gap_fm")]
    (by decide) (by decide) (by decide)

end MH
